import Mathlib

/-!
Verification of the nushell `group-by date` command
(src/crates/nu-cli/src/commands/group_by_date.rs).

The repository source contains the command adapter `group_by_date`: it
collects the input values, rejects an empty input with a labeled error
("Expected table from pipeline" / "requires a table input"), and otherwise
calls the grouping engine `crate::utils::data::group` with a key-formatting
closure `|row| row.format(pattern)`, where `pattern` is the `--format`
argument when given and the fixed default "%Y-%b-%d" otherwise.

The grouping engine `crate::utils::data::group` and the key formatter
`Value::format` live outside the provided sources, so they are modelled
from the specification (marked `Modelled from the spec:` below); the
adapter logic is translated directly from group_by_date.rs.
-/

/-- Source span: provenance metadata carried by every value, used only for
error reporting (models nu_source tags). -/
structure Span where
  start : Nat
  stop : Nat
deriving DecidableEq, Repr

/-- Structured pipeline value (models the relevant variants of
nu_protocol::Value per the spec's data model): date/time scalar, string
scalar, integer scalar, row (ordered column-to-value mapping) and table
(ordered sequence of rows). Every variant carries a source span. -/
inductive Value where
  | date (year month day : Nat) (span : Span)
  | str (s : String) (span : Span)
  | int (n : Int) (span : Span)
  | row (entries : List (String × Value)) (span : Span)
  | table (rows : List Value) (span : Span)

/-- The source span carried by a value. -/
def Value.span : Value → Span
  | .date _ _ _ sp => sp
  | .str _ sp => sp
  | .int _ sp => sp
  | .row _ sp => sp
  | .table _ sp => sp

/-- Errors of the modelled core (models nu_errors::ShellError):
a generic labeled error (message, label, span) as produced by
ShellError::labeled_error in group_by_date.rs, the column-not-found error,
and the date-format error naming the offending value and pattern. -/
inductive ShellError where
  | labeledError (msg label : String) (span : Span)
  | columnNotFound (column : String) (span : Span)
  | formatError (value : Value) (pattern : String) (span : Span)

/-- Abbreviated month name for months 1..12, as produced by the %b
strftime directive; none for out-of-range months. -/
def monthAbbrev : Nat → Option String
  | 1 => some "Jan"
  | 2 => some "Feb"
  | 3 => some "Mar"
  | 4 => some "Apr"
  | 5 => some "May"
  | 6 => some "Jun"
  | 7 => some "Jul"
  | 8 => some "Aug"
  | 9 => some "Sep"
  | 10 => some "Oct"
  | 11 => some "Nov"
  | 12 => some "Dec"
  | _ => none

/-- Decimal rendering of a natural number left-padded with zeros to the
given width (as %Y pads to 4 digits and %m, %d pad to 2). -/
def padZeros (width : Nat) (n : Nat) : String :=
  let s := toString n
  String.mk (List.replicate (width - s.length) '0') ++ s

/-- One strftime-style directive applied to a date: %Y is the 4-digit
year, %m the 2-digit month, %d the 2-digit day, %b the abbreviated month
name; any other directive is unsupported and fails. -/
def applyDirective (year month day : Nat) (c : Char) : Option String :=
  if c = 'Y' then some (padZeros 4 year)
  else if c = 'm' then some (padZeros 2 month)
  else if c = 'd' then some (padZeros 2 day)
  else if c = 'b' then monthAbbrev month
  else none

/-- Render a strftime-style pattern (as a character list) against a date:
a percent sign introduces a directive, every other character is literal
output; an unsupported directive or a trailing percent fails. -/
def renderPattern (year month day : Nat) : List Char → Option String
  | [] => some ""
  | '%' :: rest =>
    match rest with
    | [] => none
    | c :: rest2 =>
      match applyDirective year month day c with
      | none => none
      | some piece =>
        match renderPattern year month day rest2 with
        | none => none
        | some tail => some (piece ++ tail)
  | c :: rest =>
    match renderPattern year month day rest with
    | none => none
    | some tail => some (String.singleton c ++ tail)

/-- Modelled from the spec: the Key Formatter Value::format is not among
the provided sources. Per the spec it formats a date/time scalar with a
strftime-style pattern and fails with a FormatError naming the offending
value, the pattern and the source span when the value is not a
date/time-representable scalar or the pattern holds an unsupported
directive. Deterministic and side-effect free. -/
def Value.format (v : Value) (pattern : String) : Except ShellError String :=
  match v with
  | .date y m d sp =>
    match renderPattern y m d pattern.data with
    | some s => .ok s
    | none => .error (.formatError (.date y m d sp) pattern sp)
  | other => .error (.formatError other pattern other.span)

/-- Modelled from the spec: per-row value resolution inside the grouping
engine crate::utils::data::group (not among the provided sources). With no
column name the row itself is the date-bearing value; with a column name
the row must be a Row variant containing that column, whose field value is
extracted, and otherwise the operation fails with a ColumnNotFoundError
naming the column and the row's span. -/
def extractValue (column_name : Option String) (r : Value) : Except ShellError Value :=
  match column_name with
  | none => .ok r
  | some name =>
    match r with
    | .row entries sp =>
      match entries.lookup name with
      | some v => .ok v
      | none => .error (.columnNotFound name sp)
    | other => .error (.columnNotFound name other.span)

/-- Insert a row under a key into the ordered group map: append the row to
the existing group when the key is present, otherwise append a fresh
(key, single-row) group at the end (first-seen key order). -/
def insertGroup (key : String) (r : Value) :
    List (String × List Value) → List (String × List Value)
  | [] => [(key, [r])]
  | (k, rs) :: rest =>
    if k = key then (k, rs ++ [r]) :: rest
    else (k, rs) :: insertGroup key r rest

/-- The single pass of the grouping engine: resolve each row's
date-bearing value, compute its key with the injected key function, and
accumulate the original row into the ordered group map; any per-row
failure aborts the whole pass with that error. -/
def groupLoop (column_name : Option String) (key_fn : Value → Except ShellError String) :
    List Value → List (String × List Value) → Except ShellError (List (String × List Value))
  | [], acc => .ok acc
  | r :: rest, acc =>
    match extractValue column_name r with
    | .error e => .error e
    | .ok v =>
      match key_fn v with
      | .error e => .error e
      | .ok key => groupLoop column_name key_fn rest (insertGroup key r acc)

/-- Modelled from the spec: the Grouping Engine crate::utils::data::group
is not among the provided sources. Per the spec it re-validates the
non-empty precondition (failing with the same empty-input error the caller
raises), runs the single accumulation pass over the rows, and serializes
the group map into a single Row whose columns are the group keys in
first-seen order, each mapped to a Table of that group's rows. -/
def group (column_name : Option String) (values : List Value)
    (key_fn : Value → Except ShellError String) (tag : Span) :
    Except ShellError Value :=
  if values.isEmpty then
    .error (.labeledError "Expected table from pipeline" "requires a table input" tag)
  else
    match groupLoop column_name key_fn values [] with
    | .error e => .error e
    | .ok gm => .ok (.row (gm.map fun p => (p.1, Value.table p.2 tag)) tag)

/-- The command core, translated from group_by_date in
src/crates/nu-cli/src/commands/group_by_date.rs (lines 74-113): an empty
collected input fails with the labeled error; otherwise the grouping
engine is called with the key closure row.format("%Y-%b-%d") when no
format argument was given and row.format(fmt) when format = Some(fmt). -/
def group_by_date (column_name : Option String) (format : Option String)
    (values : List Value) (name : Span) : Except ShellError Value :=
  if values.isEmpty then
    .error (.labeledError "Expected table from pipeline" "requires a table input" name)
  else
    match format with
    | none => group column_name values (fun r => r.format "%Y-%b-%d") name
    | some fmt => group column_name values (fun r => r.format fmt) name

/-- The pattern actually used for a given format argument: the caller's
pattern when present, the fixed default otherwise. -/
def patternOf (format : Option String) : String :=
  match format with
  | none => "%Y-%b-%d"
  | some fmt => fmt

/-- The key computation one row undergoes: column extraction followed by
the injected key function. -/
def rowKeyUnder (column_name : Option String)
    (key_fn : Value → Except ShellError String) (r : Value) :
    Except ShellError String :=
  match extractValue column_name r with
  | .error e => .error e
  | .ok v => key_fn v

/-- The key sequence of all rows under a key function (fails on the first
row whose key computation fails). -/
def keysUnder (column_name : Option String)
    (key_fn : Value → Except ShellError String) :
    List Value → Except ShellError (List String)
  | [] => .ok []
  | r :: rest =>
    match rowKeyUnder column_name key_fn r with
    | .error e => .error e
    | .ok k =>
      match keysUnder column_name key_fn rest with
      | .error e => .error e
      | .ok ks => .ok (k :: ks)

/-- The key computation one row undergoes in a group_by_date invocation
with the given format argument. -/
def rowKey (column_name : Option String) (format : Option String) (r : Value) :
    Except ShellError String :=
  rowKeyUnder column_name (fun v => v.format (patternOf format)) r

/-- The key sequence of all rows in a group_by_date invocation with the
given format argument. -/
def computedKeys (column_name : Option String) (format : Option String)
    (values : List Value) : Except ShellError (List String) :=
  keysUnder column_name (fun v => v.format (patternOf format)) values

/-- All rows of the group map, groups concatenated in map order. -/
def flattenGroups (gm : List (String × List Value)) : List Value :=
  (gm.map Prod.snd).flatten

/-- Append a key to a key list unless it is already present (first-seen
deduplication step). -/
def addKey (ks : List String) (k : String) : List String :=
  if k ∈ ks then ks else ks ++ [k]

/-- The rows stored under a given key in the group map (concatenating the
tables of every group carrying that key). -/
def rowsOf : List (String × List Value) → String → List Value
  | [], _ => []
  | (k0, rs) :: rest, k => if k0 = k then rs ++ rowsOf rest k else rowsOf rest k

/-- Whether a value fails column extraction for a name: it is not a Row
variant, or it is a Row without that column. -/
def lacksColumn (name : String) (r : Value) : Bool :=
  match r with
  | .row entries _ => (entries.lookup name).isNone
  | _ => true

def span0 : Span := ⟨0, 0⟩

def span1 : Span := ⟨1, 2⟩

def span2 : Span := ⟨3, 4⟩

/-- Sample input: three date rows, the first and third sharing a group key. -/
def sampleRows : List Value :=
  [Value.date 2021 1 5 span1, Value.date 2021 1 6 span2, Value.date 2021 1 5 span1]

/-- The grouped output of sampleRows under the default pattern. -/
def sampleOut : Value :=
  Value.row
    [("2021-Jan-05", Value.table [Value.date 2021 1 5 span1, Value.date 2021 1 5 span1] span0),
     ("2021-Jan-06", Value.table [Value.date 2021 1 6 span2] span0)]
    span0

/-- Sample failing input: a single non-date scalar. -/
def badValues : List Value := [Value.str "oops" span1]

/-- Flattening the group map after an insertion yields the old rows plus
the inserted row, up to permutation. -/
theorem flattenGroups_insertGroup (key : String) (r : Value) :
    ∀ gm : List (String × List Value),
      (flattenGroups (insertGroup key r gm)).Perm (flattenGroups gm ++ [r])
  | [] => by simp [insertGroup, flattenGroups]
  | (k, rs) :: rest => by
    by_cases h : k = key
    · simp only [insertGroup, h, if_pos, flattenGroups, List.map_cons, List.flatten_cons]
      have h1 : (rs ++ [r]) ++ (rest.map Prod.snd).flatten =
          rs ++ ([r] ++ (rest.map Prod.snd).flatten) := by
        rw [List.append_assoc]
      rw [h1]
      have h2 : (rs ++ (rest.map Prod.snd).flatten) ++ [r] =
          rs ++ ((rest.map Prod.snd).flatten ++ [r]) := by
        rw [List.append_assoc]
      rw [h2]
      exact List.Perm.append_left rs List.perm_append_comm
    · simp only [insertGroup, h, if_neg, if_false, flattenGroups, List.map_cons,
        List.flatten_cons]
      have ih := flattenGroups_insertGroup key r rest
      have h2 : (rs ++ flattenGroups rest) ++ [r] =
          rs ++ (flattenGroups rest ++ [r]) := by
        rw [List.append_assoc]
      rw [show ((rest.map Prod.snd).flatten : List Value) = flattenGroups rest from rfl, h2]
      exact List.Perm.append_left rs ih

/-- Inserting a row updates the key list by the first-seen append step. -/
theorem keys_insertGroup (key : String) (r : Value) :
    ∀ gm : List (String × List Value),
      (insertGroup key r gm).map Prod.fst = addKey (gm.map Prod.fst) key
  | [] => by simp [insertGroup, addKey]
  | (k, rs) :: rest => by
    by_cases h : k = key
    · subst h
      simp [insertGroup, addKey]
    · have hk : key ≠ k := Ne.symm h
      by_cases hm : key ∈ rest.map Prod.fst
      · simp [insertGroup, h, addKey, keys_insertGroup key r rest, hm, hk]
      · simp [insertGroup, h, addKey, keys_insertGroup key r rest, hm, hk]

/-- A key absent from the key list owns no rows. -/
theorem rowsOf_eq_nil (k : String) :
    ∀ gm : List (String × List Value), k ∉ gm.map Prod.fst → rowsOf gm k = []
  | [], _ => rfl
  | (k0, rs) :: rest, h => by
    simp only [List.map_cons, List.mem_cons, not_or] at h
    have h1 : k0 ≠ k := fun hh => h.1 hh.symm
    simp [rowsOf, h1, rowsOf_eq_nil k rest h.2]

/-- The addKey step preserves key-list distinctness. -/
theorem addKey_nodup {ks : List String} (k : String) (h : ks.Nodup) :
    (addKey ks k).Nodup := by
  unfold addKey
  by_cases hm : k ∈ ks
  · simpa [hm]
  · simp [hm, List.nodup_append, h]

/-- Folding addKey from a distinct key list keeps the key list distinct. -/
theorem foldl_addKey_nodup :
    ∀ (ks ks0 : List String), ks0.Nodup → (ks.foldl addKey ks0).Nodup
  | [], _, h => h
  | k :: ks, ks0, h => foldl_addKey_nodup ks (addKey ks0 k) (addKey_nodup k h)

/-- With distinct keys, inserting a row appends it to exactly its key's
group and leaves every other group unchanged. -/
theorem rowsOf_insertGroup (key : String) (r : Value) :
    ∀ gm : List (String × List Value), (gm.map Prod.fst).Nodup →
      ∀ k, rowsOf (insertGroup key r gm) k =
        if k = key then rowsOf gm k ++ [r] else rowsOf gm k
  | [], _, k => by
    by_cases h : k = key
    · simp [insertGroup, rowsOf, h]
    · have h2 : ¬ key = k := fun hh => h hh.symm
      simp [insertGroup, rowsOf, h, h2]
  | (k0, rs) :: rest, hnd, k => by
    simp only [List.map_cons, List.nodup_cons] at hnd
    by_cases h0 : k0 = key
    · subst h0
      by_cases hk : k0 = k
      · subst hk
        have hnil : rowsOf rest k0 = [] := rowsOf_eq_nil k0 rest hnd.1
        simp [insertGroup, rowsOf, hnil]
      · have hk2 : ¬ k = k0 := fun hh => hk hh.symm
        simp [insertGroup, rowsOf, hk, hk2]
    · have ih := rowsOf_insertGroup key r rest hnd.2 k
      by_cases hk : k0 = k
      · subst hk
        simp only [insertGroup, if_neg h0, rowsOf, if_pos rfl, ih]
      · simp only [insertGroup, if_neg h0, rowsOf, if_neg hk, ih]

/-- A successful grouping pass implies every row's key computation
succeeded, yielding the key sequence. -/
theorem groupLoop_ok_keysUnder (cn : Option String)
    (f : Value → Except ShellError String) :
    ∀ (rows : List Value) (acc gm : List (String × List Value)),
      groupLoop cn f rows acc = .ok gm → ∃ ks, keysUnder cn f rows = .ok ks
  | [], _, _, _ => ⟨[], rfl⟩
  | r :: rest, acc, gm, h => by
    simp only [groupLoop] at h
    cases hE : extractValue cn r with
    | error e => simp [hE] at h
    | ok v =>
      cases hK : f v with
      | error e => simp [hE, hK] at h
      | ok key =>
        simp only [hE, hK] at h
        obtain ⟨ks, hks⟩ :=
          groupLoop_ok_keysUnder cn f rest (insertGroup key r acc) gm h
        exact ⟨key :: ks, by simp [keysUnder, rowKeyUnder, hE, hK, hks]⟩

/-- A successful grouping pass distributes exactly the scanned rows over
the accumulator, up to permutation. -/
theorem groupLoop_perm (cn : Option String)
    (f : Value → Except ShellError String) :
    ∀ (rows : List Value) (acc gm : List (String × List Value)),
      groupLoop cn f rows acc = .ok gm →
      (flattenGroups gm).Perm (flattenGroups acc ++ rows)
  | [], acc, gm, h => by
    simp only [groupLoop, Except.ok.injEq] at h
    subst h
    simp
  | r :: rest, acc, gm, h => by
    simp only [groupLoop] at h
    cases hE : extractValue cn r with
    | error e => simp [hE] at h
    | ok v =>
      cases hK : f v with
      | error e => simp [hE, hK] at h
      | ok key =>
        simp only [hE, hK] at h
        have ih := groupLoop_perm cn f rest (insertGroup key r acc) gm h
        have hins :=
          (flattenGroups_insertGroup key r acc).append_right rest
        have h1 := ih.trans hins
        have h2 : (flattenGroups acc ++ [r]) ++ rest =
            flattenGroups acc ++ (r :: rest) := by simp
        exact h2 ▸ h1

/-- A successful grouping pass lists its group keys in first-seen order of
the computed key sequence. -/
theorem groupLoop_keys (cn : Option String)
    (f : Value → Except ShellError String) :
    ∀ (rows : List Value) (acc gm : List (String × List Value))
      (ks : List String),
      groupLoop cn f rows acc = .ok gm →
      keysUnder cn f rows = .ok ks →
      gm.map Prod.fst = ks.foldl addKey (acc.map Prod.fst)
  | [], acc, gm, ks, h, hk => by
    simp only [groupLoop, Except.ok.injEq] at h
    simp only [keysUnder, Except.ok.injEq] at hk
    subst h
    subst hk
    rfl
  | r :: rest, acc, gm, ks, h, hk => by
    simp only [groupLoop] at h
    simp only [keysUnder, rowKeyUnder] at hk
    cases hE : extractValue cn r with
    | error e => simp [hE] at h
    | ok v =>
      cases hK : f v with
      | error e => simp [hE, hK] at h
      | ok key =>
        simp only [hE, hK] at h hk
        cases hks : keysUnder cn f rest with
        | error e => simp [hks] at hk
        | ok ks2 =>
          simp only [hks, Except.ok.injEq] at hk
          subst hk
          have ih :=
            groupLoop_keys cn f rest (insertGroup key r acc) gm ks2 h hks
          rw [ih, keys_insertGroup]
          rfl

/-- A successful grouping pass stores under each key exactly the rows
whose computed key it is, in input order. -/
theorem groupLoop_rowsOf (cn : Option String)
    (f : Value → Except ShellError String) :
    ∀ (rows : List Value) (acc gm : List (String × List Value))
      (ks : List String),
      (acc.map Prod.fst).Nodup →
      groupLoop cn f rows acc = .ok gm →
      keysUnder cn f rows = .ok ks →
      ∀ k, rowsOf gm k =
        rowsOf acc k ++ ((rows.zip ks).filter fun p => p.2 == k).map Prod.fst
  | [], acc, gm, ks, _, h, hk => by
    simp only [groupLoop, Except.ok.injEq] at h
    simp only [keysUnder, Except.ok.injEq] at hk
    subst h
    subst hk
    simp
  | r :: rest, acc, gm, ks, hnd, h, hk => by
    simp only [groupLoop] at h
    simp only [keysUnder, rowKeyUnder] at hk
    cases hE : extractValue cn r with
    | error e => simp [hE] at h
    | ok v =>
      cases hK : f v with
      | error e => simp [hE, hK] at h
      | ok key =>
        simp only [hE, hK] at h hk
        cases hks : keysUnder cn f rest with
        | error e => simp [hks] at hk
        | ok ks2 =>
          simp only [hks, Except.ok.injEq] at hk
          subst hk
          have hnd2 : ((insertGroup key r acc).map Prod.fst).Nodup := by
            rw [keys_insertGroup]
            exact addKey_nodup key hnd
          have ih :=
            groupLoop_rowsOf cn f rest (insertGroup key r acc) gm ks2 hnd2 h hks
          intro k
          have hrins := rowsOf_insertGroup key r acc hnd k
          by_cases hkk : k = key
          · subst hkk
            simp only [ih, hrins, if_pos rfl, List.zip_cons_cons,
              List.filter_cons, beq_self_eq_true, if_pos, List.map_cons,
              List.append_assoc, List.cons_append, List.nil_append]
          · have hkk2 : ¬ (key == k) = true := by
              simp [beq_iff_eq]
              exact fun hh => hkk hh.symm
            simp only [ih, hrins, if_neg hkk, List.zip_cons_cons,
              List.filter_cons, hkk2, List.append_assoc]
            simp [hkk2]

/-- A failing key sequence makes the grouping pass fail with that same
error, whatever the accumulator. -/
theorem groupLoop_error_of_keysUnder (cn : Option String)
    (f : Value → Except ShellError String) :
    ∀ (rows : List Value) (acc : List (String × List Value)) (e : ShellError),
      keysUnder cn f rows = .error e →
      groupLoop cn f rows acc = .error e
  | [], _, _, h => by simp [keysUnder] at h
  | r :: rest, acc, e, h => by
    simp only [keysUnder, rowKeyUnder] at h
    simp only [groupLoop]
    cases hE : extractValue cn r with
    | error e2 =>
      simp only [hE] at h ⊢
      simpa using h
    | ok v =>
      simp only [hE] at h ⊢
      cases hK : f v with
      | error e2 =>
        simp only [hK] at h ⊢
        simpa using h
      | ok key =>
        simp only [hK] at h ⊢
        cases hks : keysUnder cn f rest with
        | error e2 =>
          simp only [hks] at h
          obtain rfl : e2 = e := by simpa using h
          exact groupLoop_error_of_keysUnder cn f rest (insertGroup key r acc) _ hks
        | ok ks => simp [hks] at h

/-- A failing key sequence exhibits a row whose key computation fails with
that error. -/
theorem keysUnder_error_mem (cn : Option String)
    (f : Value → Except ShellError String) :
    ∀ (rows : List Value) (e : ShellError),
      keysUnder cn f rows = .error e →
      ∃ r ∈ rows, rowKeyUnder cn f r = .error e
  | [], _, h => by simp [keysUnder] at h
  | r :: rest, e, h => by
    simp only [keysUnder] at h
    cases hR : rowKeyUnder cn f r with
    | error e2 =>
      simp only [hR] at h
      obtain rfl : e2 = e := by simpa using h
      exact ⟨r, List.mem_cons_self r rest, hR⟩
    | ok k =>
      simp only [hR] at h
      cases hks : keysUnder cn f rest with
      | error e2 =>
        simp only [hks] at h
        obtain rfl : e2 = e := by simpa using h
        obtain ⟨r2, hr2, he2⟩ := keysUnder_error_mem cn f rest _ hks
        exact ⟨r2, List.mem_cons_of_mem r hr2, he2⟩
      | ok ks => simp [hks] at h

/-- A row whose key computation fails makes the whole key sequence fail. -/
theorem keysUnder_error_of_mem (cn : Option String)
    (f : Value → Except ShellError String) :
    ∀ rows : List Value,
      (∃ r ∈ rows, ∃ e, rowKeyUnder cn f r = .error e) →
      ∃ e, keysUnder cn f rows = .error e
  | [], h => by
    obtain ⟨r, hr, _⟩ := h
    exact absurd hr (List.not_mem_nil r)
  | r :: rest, h => by
    cases hR : rowKeyUnder cn f r with
    | error e => exact ⟨e, by simp [keysUnder, hR]⟩
    | ok k =>
      obtain ⟨r0, hr0, e0, he0⟩ := h
      rcases List.mem_cons.mp hr0 with hEq | hMem
      · subst hEq
        rw [hR] at he0
        cases he0
      · obtain ⟨e, he⟩ :=
          keysUnder_error_of_mem cn f rest ⟨r0, hMem, e0, he0⟩
        exact ⟨e, by simp [keysUnder, hR, he]⟩

/-- When every earlier row succeeds and one row's key computation fails,
the key sequence fails with exactly that row's error. -/
theorem keysUnder_first_error (cn : Option String)
    (f : Value → Except ShellError String) :
    ∀ (pre : List Value) (r : Value) (post : List Value) (e : ShellError),
      (∀ p ∈ pre, ∃ k, rowKeyUnder cn f p = .ok k) →
      rowKeyUnder cn f r = .error e →
      keysUnder cn f (pre ++ r :: post) = .error e
  | [], r, post, e, _, hr => by simp [keysUnder, hr]
  | p :: pre, r, post, e, hpre, hr => by
    obtain ⟨k, hk⟩ := hpre p (List.mem_cons_self p pre)
    have ih := keysUnder_first_error cn f pre r post e
      (fun q hq => hpre q (List.mem_cons_of_mem p hq)) hr
    simp [keysUnder, hk, ih]

/-- Failing column extraction for a value lacking the column produces the
column-not-found error at that value's span. -/
theorem extractValue_error_of_lacksColumn (name : String) (r : Value)
    (h : lacksColumn name r = true) :
    extractValue (some name) r = .error (.columnNotFound name r.span) := by
  cases r with
  | row entries sp =>
    simp only [lacksColumn, Option.isNone_iff_eq_none] at h
    simp [extractValue, h, Value.span]
  | date y m d sp => rfl
  | str s sp => rfl
  | int n sp => rfl
  | table rows sp => rfl

/-- The adapter equals the engine called with the per-format key closure. -/
theorem group_by_date_eq_group (column_name format_arg : Option String)
    (values : List Value) (tag : Span) :
    group_by_date column_name format_arg values tag =
      group column_name values (fun r => r.format (patternOf format_arg)) tag := by
  cases values <;> cases format_arg <;> rfl

/-- A successful engine call comes from a successful grouping pass whose
serialized group map is the output row. -/
theorem group_ok_elim (cn : Option String) (values : List Value)
    (f : Value → Except ShellError String) (tag : Span) (out : Value)
    (h : group cn values f tag = .ok out) :
    ∃ gm, groupLoop cn f values [] = .ok gm ∧
      out = Value.row (gm.map fun p => (p.1, Value.table p.2 tag)) tag := by
  cases values with
  | nil => simp [group] at h
  | cons a l =>
    simp only [group, List.isEmpty_cons, Bool.false_eq_true, if_false] at h
    cases hgl : groupLoop cn f (a :: l) [] with
    | error e => rw [hgl] at h; cases h
    | ok gm =>
      rw [hgl] at h
      refine ⟨gm, rfl, ?_⟩
      simpa using h.symm

/-- A failing key sequence over a non-empty input makes the engine fail
with that error. -/
theorem group_error_of_keysUnder (cn : Option String) (values : List Value)
    (f : Value → Except ShellError String) (tag : Span) (e : ShellError)
    (hne : values ≠ []) (h : keysUnder cn f values = .error e) :
    group cn values f tag = .error e := by
  cases values with
  | nil => exact absurd rfl hne
  | cons a l =>
    simp only [group, List.isEmpty_cons, Bool.false_eq_true, if_false]
    rw [groupLoop_error_of_keysUnder cn f (a :: l) [] e h]

/-- C1 (Row conservation): for every input on which grouping succeeds, the
output is a Row of group tables whose concatenated rows are a permutation
of the input rows — each input row appears exactly once, as the original
unmodified row — so the total number of rows over all groups equals the
number of input rows. -/
theorem C1_row_conservation (column_name format_arg : Option String)
    (values : List Value) (tag : Span) (out : Value)
    (h : group_by_date column_name format_arg values tag = .ok out) :
    ∃ gm : List (String × List Value),
      out = Value.row (gm.map fun p => (p.1, Value.table p.2 tag)) tag ∧
      (flattenGroups gm).Perm values ∧
      (gm.map fun p => p.2.length).sum = values.length := by
  rw [group_by_date_eq_group] at h
  obtain ⟨gm, hgl, hout⟩ := group_ok_elim _ _ _ _ _ h
  have hperm0 := groupLoop_perm _ _ values [] gm hgl
  have hperm : (flattenGroups gm).Perm values := by
    simpa [flattenGroups] using hperm0
  refine ⟨gm, hout, hperm, ?_⟩
  have hlen : (flattenGroups gm).length = (gm.map fun p => p.2.length).sum := by
    simp only [flattenGroups, List.length_flatten, List.map_map]
    rfl
  rw [← hlen]
  exact hperm.length_eq

/-- C1 witness: the theorem applied to a concrete successful run. -/
theorem C1_witness :
    ∃ gm : List (String × List Value),
      sampleOut = Value.row (gm.map fun p => (p.1, Value.table p.2 span0)) span0 ∧
      (flattenGroups gm).Perm sampleRows ∧
      (gm.map fun p => p.2.length).sum = sampleRows.length :=
  C1_row_conservation none none sampleRows span0 sampleOut rfl

/-- C2 (Group-key order): for every input on which grouping succeeds, the
columns of the output Row are exactly the distinct computed group keys in
first-appearance order over the single input scan (the addKey fold), with
no duplicate column. -/
theorem C2_key_order (column_name format_arg : Option String)
    (values : List Value) (tag : Span) (out : Value)
    (h : group_by_date column_name format_arg values tag = .ok out) :
    ∃ (gm : List (String × List Value)) (ks : List String),
      out = Value.row (gm.map fun p => (p.1, Value.table p.2 tag)) tag ∧
      computedKeys column_name format_arg values = .ok ks ∧
      gm.map Prod.fst = ks.foldl addKey [] ∧
      (gm.map Prod.fst).Nodup := by
  rw [group_by_date_eq_group] at h
  obtain ⟨gm, hgl, hout⟩ := group_ok_elim _ _ _ _ _ h
  obtain ⟨ks, hks⟩ := groupLoop_ok_keysUnder _ _ values [] gm hgl
  have hkeys := groupLoop_keys _ _ values [] gm ks hgl hks
  refine ⟨gm, ks, hout, hks, by simpa using hkeys, ?_⟩
  rw [hkeys]
  exact foldl_addKey_nodup ks [] List.nodup_nil

/-- C2 witness: the theorem applied to a concrete successful run. -/
theorem C2_witness :
    ∃ (gm : List (String × List Value)) (ks : List String),
      sampleOut = Value.row (gm.map fun p => (p.1, Value.table p.2 span0)) span0 ∧
      computedKeys none none sampleRows = .ok ks ∧
      gm.map Prod.fst = ks.foldl addKey [] ∧
      (gm.map Prod.fst).Nodup :=
  C2_key_order none none sampleRows span0 sampleOut rfl

/-- C3 (Row-order stability within a group): for every input on which
grouping succeeds, each group key owns exactly the input rows whose
computed key it is, in their original relative input order (stated via the
order-preserving filter of the key-annotated input sequence). -/
theorem C3_row_order_stability (column_name format_arg : Option String)
    (values : List Value) (tag : Span) (out : Value)
    (h : group_by_date column_name format_arg values tag = .ok out) :
    ∃ (gm : List (String × List Value)) (ks : List String),
      out = Value.row (gm.map fun p => (p.1, Value.table p.2 tag)) tag ∧
      computedKeys column_name format_arg values = .ok ks ∧
      ∀ k, rowsOf gm k =
        ((values.zip ks).filter fun p => p.2 == k).map Prod.fst := by
  rw [group_by_date_eq_group] at h
  obtain ⟨gm, hgl, hout⟩ := group_ok_elim _ _ _ _ _ h
  obtain ⟨ks, hks⟩ := groupLoop_ok_keysUnder _ _ values [] gm hgl
  have hrows := groupLoop_rowsOf _ _ values [] gm ks List.nodup_nil hgl hks
  refine ⟨gm, ks, hout, hks, fun k => ?_⟩
  simpa [rowsOf] using hrows k

/-- C3 witness: the theorem applied to a concrete successful run. -/
theorem C3_witness :
    ∃ (gm : List (String × List Value)) (ks : List String),
      sampleOut = Value.row (gm.map fun p => (p.1, Value.table p.2 span0)) span0 ∧
      computedKeys none none sampleRows = .ok ks ∧
      ∀ k, rowsOf gm k =
        ((sampleRows.zip ks).filter fun p => p.2 == k).map Prod.fst :=
  C3_row_order_stability none none sampleRows span0 sampleOut rfl

/-- C4 counterexample: on an empty input the invocation does fail with the
labeled empty-input error, but neither its message ("Expected table from
pipeline") nor its label ("requires a table input") is the string
"requires table input" the claim quotes. -/
theorem C4_counterexample :
    group_by_date none none [] span0 =
      .error (.labeledError "Expected table from pipeline" "requires a table input" span0) ∧
    "Expected table from pipeline" ≠ "requires table input" ∧
    "requires a table input" ≠ "requires table input" :=
  ⟨rfl, by decide, by decide⟩

/-- C4 amended (Empty-input failure): for every invocation whose collected
input sequence has zero rows, the operation fails — regardless of the
column_name and format parameters — with the labeled error whose message
is "Expected table from pipeline" and whose label is "requires a table
input", tagged with the invocation's source context, and no output value
is produced. -/
theorem C4_empty_input (column_name format_arg : Option String) (tag : Span) :
    group_by_date column_name format_arg [] tag =
      .error (.labeledError "Expected table from pipeline" "requires a table input" tag) := by
  cases format_arg <;> rfl

/-- C5 (All-or-nothing abort): whenever some input row's key computation
fails (missing column, non-record row, or unformattable date value), the
whole invocation returns a failing row's error and produces no output
value at all. -/
theorem C5_all_or_nothing (column_name format_arg : Option String)
    (values : List Value) (tag : Span)
    (hfail : ∃ r ∈ values, ∃ e, rowKey column_name format_arg r = .error e) :
    ∃ e, (∃ r ∈ values, rowKey column_name format_arg r = .error e) ∧
      group_by_date column_name format_arg values tag = .error e := by
  obtain ⟨e, hke⟩ := keysUnder_error_of_mem _ _ values hfail
  have hne : values ≠ [] := by
    rintro rfl
    obtain ⟨r, hr, _⟩ := hfail
    exact absurd hr (List.not_mem_nil r)
  refine ⟨e, keysUnder_error_mem _ _ values e hke, ?_⟩
  rw [group_by_date_eq_group]
  exact group_error_of_keysUnder _ _ _ _ _ hne hke

/-- C5 witness: the theorem applied to an input holding an unformattable
row. -/
theorem C5_witness :
    ∃ e, (∃ r ∈ badValues, rowKey none none r = .error e) ∧
      group_by_date none none badValues span0 = .error e :=
  C5_all_or_nothing none none badValues span0
    ⟨Value.str "oops" span1, List.mem_cons_self _ _,
     ShellError.formatError (Value.str "oops" span1) "%Y-%b-%d" span1, rfl⟩

/-- C6 (Default formatting): when the format parameter is absent the
grouping engine is invoked with the key closure using the fixed pattern
"%Y-%b-%d", and formatting the date 2021-01-05 with that pattern yields
the key "2021-Jan-05". -/
theorem C6_default_formatting :
    (∀ (column_name : Option String) (values : List Value) (tag : Span),
      group_by_date column_name none values tag =
        group column_name values (fun r => Value.format r "%Y-%b-%d") tag) ∧
    ∀ sp : Span,
      Value.format (Value.date 2021 1 5 sp) "%Y-%b-%d" = .ok "2021-Jan-05" := by
  constructor
  · intro column_name values tag
    cases values <;> rfl
  · intro sp
    rfl

/-- C7 (Custom formatting): when the format parameter is Some(pattern) the
grouping engine is invoked with the key closure using that caller-supplied
pattern, and formatting the date 2021-01-05 with "%d/%m/%Y" yields the key
"05/01/2021". -/
theorem C7_custom_formatting :
    (∀ (column_name : Option String) (fmt : String) (values : List Value) (tag : Span),
      group_by_date column_name (some fmt) values tag =
        group column_name values (fun r => Value.format r fmt) tag) ∧
    ∀ sp : Span,
      Value.format (Value.date 2021 1 5 sp) "%d/%m/%Y" = .ok "05/01/2021" := by
  constructor
  · intro column_name fmt values tag
    cases values <;> rfl
  · intro sp
    rfl

/-- C8 counterexample: with column_name = Some("date"), an input whose
second row lacks that column (shown by lacksColumn) still fails with a
FormatError from the first row, not with the claimed ColumnNotFoundError,
because processing is fail-fast in input order. -/
theorem C8_counterexample :
    lacksColumn "date" (Value.str "y" span2) = true ∧
    group_by_date (some "date") none
        [Value.row [("date", Value.str "x" span1)] span0, Value.str "y" span2] span0 =
      .error (.formatError (Value.str "x" span1) "%Y-%b-%d" span1) :=
  ⟨rfl, rfl⟩

/-- C8 amended (Column extraction failure): for every invocation with
column_name = Some(name) and an input containing a row that is not a Row
variant or lacks a column called name, where every earlier row processes
successfully, grouping fails with ColumnNotFoundError naming that column
and the offending row's source span, and produces no output. -/
theorem C8_column_not_found (name : String) (format_arg : Option String)
    (pre post : List Value) (r : Value) (tag : Span)
    (hpre : ∀ p ∈ pre, ∃ k, rowKey (some name) format_arg p = .ok k)
    (hr : lacksColumn name r = true) :
    group_by_date (some name) format_arg (pre ++ r :: post) tag =
      .error (.columnNotFound name r.span) := by
  have hext := extractValue_error_of_lacksColumn name r hr
  have hrk : rowKeyUnder (some name) (fun v => v.format (patternOf format_arg)) r =
      .error (.columnNotFound name r.span) := by
    rw [rowKeyUnder, hext]
  have hke := keysUnder_first_error (some name)
    (fun v => v.format (patternOf format_arg)) pre r post _ hpre hrk
  rw [group_by_date_eq_group]
  exact group_error_of_keysUnder _ _ _ _ _ (by simp) hke

/-- C8 witness: the amended theorem applied to a one-row input lacking the
column. -/
theorem C8_witness :
    group_by_date (some "date") none ([] ++ Value.str "y" span2 :: []) span0 =
      .error (.columnNotFound "date" (Value.str "y" span2).span) :=
  C8_column_not_found "date" none [] [] (Value.str "y" span2) span0
    (fun p hp => absurd hp (List.not_mem_nil p)) rfl

/-- C9 (Determinism): grouping is a pure deterministic function of its
inputs: two invocations with equal row sequences, equal column_name, equal
format and equal context produce equal results, group-key order included. -/
theorem C9_determinism (cn1 cn2 fmt1 fmt2 : Option String)
    (vs1 vs2 : List Value) (tag1 tag2 : Span)
    (h1 : cn1 = cn2) (h2 : fmt1 = fmt2) (h3 : vs1 = vs2) (h4 : tag1 = tag2) :
    group_by_date cn1 fmt1 vs1 tag1 = group_by_date cn2 fmt2 vs2 tag2 := by
  rw [h1, h2, h3, h4]

/-- C9 witness: the theorem applied to two identical concrete runs. -/
theorem C9_witness :
    group_by_date none none sampleRows span0 = group_by_date none none sampleRows span0 :=
  C9_determinism none none none none sampleRows sampleRows span0 span0 rfl rfl rfl rfl

/-- C10 (Explicit default equivalence): for every input row sequence and
every column_name, invoking the command with format = Some("%Y-%b-%d")
produces exactly the same result — same output value or same error — as
invoking it with the format parameter omitted. -/
theorem C10_explicit_default (column_name : Option String)
    (values : List Value) (tag : Span) :
    group_by_date column_name (some "%Y-%b-%d") values tag =
      group_by_date column_name none values tag := rfl
